import Mathlib

/-
Verification of the alch data-source adapter.

Shallow embedding conventions:
- Calendar dates (pandas Timestamps at day granularity) are modelled as
  `Int`, a count of days since an arbitrary epoch (1970-01-01), so that
  `pd.Timedelta(days=1)` is `+ 1`.
- Intraday timestamps (`trade_time`) are modelled as a pair
  `Int × Nat` = (day, minute-of-day).
- Numeric price fields (coerced to np.float64 in the source) are modelled
  as exact rationals `ℚ`; the multiplicative unit conversions at issue
  (x100, x1000 on small provider values) are exact in both models.
- The tushare provider endpoints are opaque callables, modelled as
  functions from the call arguments plus an attempt index to
  `Except String rows`; a `.error` models the callable raising.
- The `retry` decorator (`@retry(tries=5, delay=10)`) is modelled by
  `retryCall`, which mirrors the decorator's loop: attempt the call; on
  any raised error decrement the budget, re-raise when it hits zero,
  otherwise sleep `delay` seconds and try again.  `retryCall` returns the
  final outcome together with the number of attempts made and the total
  seconds slept, so retry behaviour is observable in theorems.
-/

namespace Alch

/-! ## `alch.utils.time.split_date_range`

The source loop is

    current_date = start_date
    while current_date <= end_date:
        period_start = current_date
        period_end = min(end_date, period_start + period)
        periods.append((period_start, period_end))
        current_date = period_end + pd.Timedelta(days=1)

`splitGo` is that loop with an explicit fuel argument (structural
recursion); `split_date_range` runs it with fuel `(end+1-start).toNat`,
which is shown sufficient below.  The period is a non-negative day count
(the `pd.Timedelta(days=n)` case used by the adapter). -/

def splitGo (p : Nat) (endD : Int) : Nat → Int → List (Int × Int)
  | 0, _ => []
  | fuel + 1, cur =>
    if cur ≤ endD then
      (cur, min endD (cur + (p : Int))) :: splitGo p endD fuel (min endD (cur + (p : Int)) + 1)
    else []

def split_date_range (start_date end_date : Int) (period : Nat) : List (Int × Int) :=
  splitGo period end_date (end_date + 1 - start_date).toNat start_date

/-- The loop of `split_date_range` with the period kept as an arbitrary
(possibly negative) `Int` day count and fuel exhaustion made observable:
`none` means the while-loop was still running when the fuel ran out. -/
def splitLoop (p : Int) (endD : Int) : Nat → Int → Option (List (Int × Int))
  | 0, cur => if cur ≤ endD then none else some []
  | fuel + 1, cur =>
    if cur ≤ endD then
      match splitLoop p endD fuel (min endD (cur + p) + 1) with
      | none => none
      | some rest => some ((cur, min endD (cur + p)) :: rest)
    else some []

lemma splitGo_fuel_congr (p : Nat) (endD : Int) :
    ∀ (fuel fuel' : Nat) (cur : Int),
      (endD + 1 - cur).toNat ≤ fuel → (endD + 1 - cur).toNat ≤ fuel' →
      splitGo p endD fuel cur = splitGo p endD fuel' cur := by
  intro fuel
  induction fuel with
  | zero =>
    intro fuel' cur h h'
    have hc : ¬ cur ≤ endD := by omega
    cases fuel' with
    | zero => rfl
    | succ n => simp [splitGo, hc]
  | succ n ih =>
    intro fuel' cur h h'
    by_cases hc : cur ≤ endD
    · cases fuel' with
      | zero => omega
      | succ m =>
        simp only [splitGo, hc, if_true]
        have hmin : cur ≤ min endD (cur + (p : Int)) := by omega
        exact congrArg _ (ih m _ (by omega) (by omega))
    · cases fuel' with
      | zero => simp [splitGo, hc]
      | succ m => simp [splitGo, hc]

lemma split_unfold_pos {s e : Int} (p : Nat) (h : s ≤ e) :
    split_date_range s e p =
      (s, min e (s + (p : Int))) :: split_date_range (min e (s + (p : Int)) + 1) e p := by
  have hfu : (e + 1 - s).toNat = ((e + 1 - s).toNat - 1) + 1 := by omega
  unfold split_date_range
  rw [hfu]
  simp only [splitGo, h, if_true]
  refine congrArg _ (splitGo_fuel_congr p e _ _ _ ?_ ?_) <;> omega

lemma split_unfold_neg {s e : Int} (p : Nat) (h : e < s) :
    split_date_range s e p = [] := by
  unfold split_date_range
  rw [show (e + 1 - s).toNat = 0 by omega]
  rfl

lemma split_mem_bounds (e : Int) (p : Nat) :
    ∀ (n : Nat) (s : Int), (e + 1 - s).toNat ≤ n →
      ∀ r ∈ split_date_range s e p, s ≤ r.1 ∧ r.1 ≤ r.2 ∧ r.2 ≤ e := by
  intro n
  induction n with
  | zero =>
    intro s hs r hr
    rw [split_unfold_neg p (by omega)] at hr
    simp at hr
  | succ n ih =>
    intro s hs r hr
    by_cases h : s ≤ e
    · rw [split_unfold_pos p h] at hr
      rcases List.mem_cons.mp hr with rfl | hr
      · refine ⟨le_refl _, ?_, ?_⟩
        · show s ≤ min e (s + (p : Int))
          omega
        · show min e (s + (p : Int)) ≤ e
          omega
      · have := ih (min e (s + (p : Int)) + 1) (by omega) r hr
        exact ⟨by omega, this.2.1, this.2.2⟩
    · rw [split_unfold_neg p (by omega)] at hr
      simp at hr

lemma split_mem_bounds' {e s : Int} {p : Nat} :
    ∀ r ∈ split_date_range s e p, s ≤ r.1 ∧ r.1 ≤ r.2 ∧ r.2 ≤ e :=
  split_mem_bounds e p (e + 1 - s).toNat s (le_refl _)

lemma split_disjoint (e : Int) (p : Nat) :
    ∀ (n : Nat) (s : Int), (e + 1 - s).toNat ≤ n →
      List.Pairwise (fun a b : Int × Int => a.2 < b.1) (split_date_range s e p) := by
  intro n
  induction n with
  | zero =>
    intro s hs
    rw [split_unfold_neg p (by omega)]
    exact List.Pairwise.nil
  | succ n ih =>
    intro s hs
    by_cases h : s ≤ e
    · rw [split_unfold_pos p h]
      refine List.Pairwise.cons ?_ (ih _ (by omega))
      intro b hb
      have := split_mem_bounds' b hb
      simp only
      omega
    · rw [split_unfold_neg p (by omega)]
      exact List.Pairwise.nil

lemma split_disjoint' {e s : Int} {p : Nat} :
    List.Pairwise (fun a b : Int × Int => a.2 < b.1) (split_date_range s e p) :=
  split_disjoint e p (e + 1 - s).toNat s (le_refl _)

lemma split_head {e s : Int} (p : Nat) (h : s ≤ e) :
    (split_date_range s e p).head? = some (s, min e (s + (p : Int))) := by
  rw [split_unfold_pos p h]
  rfl

lemma split_chain (e : Int) (p : Nat) :
    ∀ (n : Nat) (s : Int), (e + 1 - s).toNat ≤ n →
      List.Chain' (fun a b : Int × Int => b.1 = a.2 + 1) (split_date_range s e p) := by
  intro n
  induction n with
  | zero =>
    intro s hs
    rw [split_unfold_neg p (by omega)]
    exact List.chain'_nil
  | succ n ih =>
    intro s hs
    by_cases h : s ≤ e
    · rw [split_unfold_pos p h]
      refine List.chain'_cons'.mpr ⟨?_, ih _ (by omega)⟩
      intro y hy
      by_cases h2 : min e (s + (p : Int)) + 1 ≤ e
      · rw [split_head p h2] at hy
        cases hy
        rfl
      · rw [split_unfold_neg p (by omega)] at hy
        simp at hy
    · rw [split_unfold_neg p (by omega)]
      exact List.chain'_nil

lemma split_getLast (e : Int) (p : Nat) :
    ∀ (n : Nat) (s : Int), (e + 1 - s).toNat ≤ n → s ≤ e →
      ((split_date_range s e p).getLast?).map Prod.snd = some e := by
  intro n
  induction n with
  | zero => intro s hs h; omega
  | succ n ih =>
    intro s hs h
    rw [split_unfold_pos p h]
    by_cases h2 : min e (s + (p : Int)) + 1 ≤ e
    · have hne : split_date_range (min e (s + (p : Int)) + 1) e p ≠ [] := by
        intro hemp
        have := split_head p h2
        rw [hemp] at this
        cases this
      obtain ⟨x, xs, hxs⟩ := List.exists_cons_of_ne_nil hne
      rw [hxs, List.getLast?_cons_cons, ← hxs]
      exact ih _ (by omega) h2
    · rw [split_unfold_neg p (by omega)]
      simp
      omega

lemma split_coverage (e : Int) (p : Nat) :
    ∀ (n : Nat) (s : Int), (e + 1 - s).toNat ≤ n →
      ∀ d : Int, s ≤ d → d ≤ e →
        ∃ r ∈ split_date_range s e p, r.1 ≤ d ∧ d ≤ r.2 := by
  intro n
  induction n with
  | zero => intro s hs d h1 h2; omega
  | succ n ih =>
    intro s hs d h1 h2
    have h : s ≤ e := le_trans h1 h2
    rw [split_unfold_pos p h]
    by_cases hd : d ≤ min e (s + (p : Int))
    · exact ⟨(s, min e (s + (p : Int))), List.mem_cons_self _ _, h1, hd⟩
    · obtain ⟨r, hr, hr1, hr2⟩ :=
        ih (min e (s + (p : Int)) + 1) (by omega) d (by omega) h2
      exact ⟨r, List.mem_cons_of_mem _ hr, hr1, hr2⟩

lemma split_ne_nil {e s : Int} (p : Nat) (h : s ≤ e) :
    split_date_range s e p ≠ [] := by
  intro hemp
  have := split_head p h
  rw [hemp] at this
  cases this

lemma splitLoop_eq_split (e : Int) (p : Nat) :
    ∀ (fuel : Nat) (s : Int), (e + 1 - s).toNat ≤ fuel →
      splitLoop (p : Int) e fuel s = some (split_date_range s e p) := by
  intro fuel
  induction fuel with
  | zero =>
    intro s hs
    have h : ¬ s ≤ e := by omega
    rw [split_unfold_neg p (by omega)]
    simp [splitLoop, h]
  | succ n ih =>
    intro s hs
    by_cases h : s ≤ e
    · rw [split_unfold_pos p h]
      simp only [splitLoop, h, if_true]
      rw [ih (min e (s + (p : Int)) + 1) (by omega)]
    · rw [split_unfold_neg p (by omega)]
      simp [splitLoop, h]

lemma splitLoop_neg_one_diverges (e : Int) :
    ∀ (fuel : Nat) (s : Int), s ≤ e → splitLoop (-1) e fuel s = none := by
  intro fuel
  induction fuel with
  | zero =>
    intro s h
    simp [splitLoop, h]
  | succ n ih =>
    intro s h
    simp only [splitLoop, h, if_true]
    rw [show min e (s + (-1)) + 1 = s by omega]
    rw [ih s h]

/-- C1: for every pair of dates `start ≤ end` and every non-negative period,
`split_date_range` returns a non-empty ordered sequence of ranges that is
contiguous (each range's start is exactly one day after the previous
range's end), non-overlapping, whose first range starts at `start` and
last range ends at `end`, and whose union of emitted intervals is exactly
the requested interval. -/
theorem c1_split_range_covers_exactly (start_date end_date : Int) (period : Nat)
    (h : start_date ≤ end_date) :
    split_date_range start_date end_date period ≠ [] ∧
    ((split_date_range start_date end_date period).head?).map Prod.fst = some start_date ∧
    ((split_date_range start_date end_date period).getLast?).map Prod.snd = some end_date ∧
    List.Chain' (fun a b : Int × Int => b.1 = a.2 + 1)
      (split_date_range start_date end_date period) ∧
    List.Pairwise (fun a b : Int × Int => a.2 < b.1)
      (split_date_range start_date end_date period) ∧
    (∀ r ∈ split_date_range start_date end_date period,
      start_date ≤ r.1 ∧ r.1 ≤ r.2 ∧ r.2 ≤ end_date) ∧
    (∀ d : Int, (start_date ≤ d ∧ d ≤ end_date) ↔
      ∃ r ∈ split_date_range start_date end_date period, r.1 ≤ d ∧ d ≤ r.2) := by
  refine ⟨split_ne_nil period h, ?_,
    split_getLast end_date period (end_date + 1 - start_date).toNat start_date (le_refl _) h,
    split_chain end_date period (end_date + 1 - start_date).toNat start_date (le_refl _),
    split_disjoint', split_mem_bounds', ?_⟩
  · rw [split_head period h]
    rfl
  · intro d
    constructor
    · rintro ⟨h1, h2⟩
      exact split_coverage end_date period (end_date + 1 - start_date).toNat start_date
        (le_refl _) d h1 h2
    · rintro ⟨r, hr, h1, h2⟩
      have := split_mem_bounds' r hr
      omega

theorem c1_witness :
    ((0 : Int) ≤ 5) ∧ split_date_range 0 5 2 ≠ [] ∧
      ((split_date_range 0 5 2).getLast?).map Prod.snd = some 5 :=
  ⟨by decide, (c1_split_range_covers_exactly 0 5 2 (by decide)).1,
    (c1_split_range_covers_exactly 0 5 2 (by decide)).2.2.1⟩

/-- C8 counterexample: calling `split_date_range` with `start > end` is not
a failure at all — the loop body never runs, so the call returns the
normal empty list (and the loop terminates immediately, `some []` in the
fuelled model), contradicting the claim that this input fails with a
caller error rather than returning a normal empty result. -/
theorem c8_counterexample :
    split_date_range 5 3 1 = [] ∧ splitLoop (1 : Int) 3 0 5 = some [] := by
  constructor <;> rfl

/-- C8 amended: calling `split_date_range` with `start > end` silently
returns the empty list; the precondition is not enforced and no error is
raised. -/
theorem c8_amended (start_date end_date : Int) (period : Nat)
    (h : end_date < start_date) :
    split_date_range start_date end_date period = [] :=
  split_unfold_neg period h

theorem c8_witness :
    ((3 : Int) < 5) ∧ split_date_range 5 3 2 = [] :=
  ⟨by decide, c8_amended 5 3 2 (by decide)⟩

/-- C10: the `split_date_range` loop terminates for every input whenever
the period is a non-negative day count — fuel `(end+1-start).toNat`
suffices, because each iteration advances the cursor one day past the
emitted range's end — and the loop runs forever (never finishes on any
amount of fuel) when `start ≤ end` and the period is `-1` day. -/
theorem c10_split_termination :
    (∀ (s e : Int) (p : Nat) (fuel : Nat), (e + 1 - s).toNat ≤ fuel →
        splitLoop (p : Int) e fuel s = some (split_date_range s e p)) ∧
    (∀ (s e : Int), s ≤ e → ∀ fuel : Nat, splitLoop (-1) e fuel s = none) :=
  ⟨fun s e p fuel hf => splitLoop_eq_split e p fuel s hf,
    fun s e h fuel => splitLoop_neg_one_diverges e fuel s h⟩

theorem c10_witness :
    (((2 : Int) + 1 - 0).toNat ≤ 3 ∧
      splitLoop ((1 : Nat) : Int) 2 3 0 = some (split_date_range 0 2 1)) ∧
      ((0 : Int) ≤ 2 ∧ splitLoop (-1) 2 4 0 = none) :=
  ⟨⟨by decide, c10_split_termination.1 0 2 1 3 (by decide)⟩,
    ⟨by decide, c10_split_termination.2 0 2 (by decide) 4⟩⟩

/-! ## `alch.data.source.tushare.TushareDataSource`

Raw provider rows (the DataFrames returned by `self._api.daily`,
`tushare.pro_bar` and `self._api.adj_factor`) and the canonical rows the
adapter builds from them. -/

structure RawDaily where
  ts_code : String
  trade_date : Int
  open_ : ℚ
  high : ℚ
  low : ℚ
  close : ℚ
  vol : ℚ
  amount : ℚ
  pre_close : ℚ
deriving DecidableEq

structure RawBar where
  ts_code : String
  trade_date : Int
  trade_time : Int × Nat
  open_ : ℚ
  high : ℚ
  low : ℚ
  close : ℚ
  vol : ℚ
  amount : ℚ
  pre_close : ℚ
deriving DecidableEq

structure RawAdj where
  ts_code : String
  trade_date : Int
  adj_factor : ℚ
deriving DecidableEq

/-- A row of the canonical table built by the historical-price fetchers;
`time` is present (`some`) exactly for the intraday path. -/
structure Record where
  symbol : String
  date : Int
  time : Option (Int × Nat)
  open_ : ℚ
  high : ℚ
  low : ℚ
  close : ℚ
  volume : ℚ
  amount : ℚ
  prev : ℚ
deriving DecidableEq

structure AdjRecord where
  symbol : String
  date : Int
  adj_factor : ℚ
deriving DecidableEq

/-- The opaque tushare endpoints.  Each takes the call arguments used in
the source plus an attempt index (so flaky behaviour across retries is
expressible) and either returns raw rows or raises. -/
structure Providers where
  daily : String → Int → Int → Nat → Except String (List RawDaily)
  proBar : String → Int → Int → String → Nat → Except String (List RawBar)
  adjFactor : String → Int → Int → Nat → Except String (List RawAdj)

/-- `TushareDataSource.convert_symbol`: `symbol.startswith("6")` decides
between the two exchange suffixes. -/
def startswith_6 (s : String) : Bool :=
  decide (s.data.head? = some ('6' : Char))

def convert_symbol (symbol : String) : String :=
  if startswith_6 symbol then symbol ++ ".SH" else symbol ++ ".SZ"

/-- `TushareDataSource.convert_date`: `date.strftime("%Y%m%d")` is an
injective re-formatting of a day-granularity timestamp; the model keeps
the day number itself. -/
def convert_date (date : Int) : Int := date

/-- `data["ts_code"].str.slice(0, 6)`. -/
def str_slice_6 (s : String) : String := String.mk (s.data.take 6)

/-! ### The `retry` decorator

`@retry(tries=5, delay=10)` (package `retry`, backoff 1, no jitter):
attempt the wrapped call; on any exception decrement the remaining
budget, re-raise if it reached zero, otherwise sleep `delay` seconds and
loop.  `retryGo f delay attempt remaining` returns
(outcome, attempts made, total seconds slept). -/

def retryGo {A : Type} (f : Nat → Except String A) (delay : Nat) :
    Nat → Nat → Except String A × Nat × Nat
  | _, 0 => (.error "RuntimeError", 0, 0)
  | attempt, remaining + 1 =>
    match f attempt with
    | .ok a => (.ok a, 1, 0)
    | .error e =>
      if remaining = 0 then (.error e, 1, 0)
      else
        let r := retryGo f delay (attempt + 1) remaining
        (r.1, r.2.1 + 1, r.2.2 + delay)

def retryCall {A : Type} (tries delay : Nat) (f : Nat → Except String A) :
    Except String A × Nat × Nat :=
  retryGo f delay 0 tries

/-! ### Sorting (`data.sort_values(by=...)`)

`sort_values` reorders the rows so that they ascend in the named column;
modelled with `List.insertionSort` under the corresponding total
preorder. -/

def dailyLe (a b : RawDaily) : Prop := a.trade_date ≤ b.trade_date

instance : DecidableRel dailyLe := fun a b => by unfold dailyLe; infer_instance

instance : IsTotal RawDaily dailyLe := ⟨fun a b => by unfold dailyLe; omega⟩

instance : IsTrans RawDaily dailyLe := ⟨fun a b c => by unfold dailyLe; omega⟩

def hfLe (a b : RawBar) : Prop :=
  a.trade_time.1 < b.trade_time.1 ∨
    (a.trade_time.1 = b.trade_time.1 ∧ a.trade_time.2 ≤ b.trade_time.2)

instance : DecidableRel hfLe := fun a b => by unfold hfLe; infer_instance

instance : IsTotal RawBar hfLe := ⟨fun a b => by unfold hfLe; omega⟩

instance : IsTrans RawBar hfLe := ⟨fun a b c => by unfold hfLe; omega⟩

def adjLe (a b : RawAdj) : Prop := a.trade_date ≤ b.trade_date

instance : DecidableRel adjLe := fun a b => by unfold adjLe; infer_instance

instance : IsTotal RawAdj adjLe := ⟨fun a b => by unfold adjLe; omega⟩

instance : IsTrans RawAdj adjLe := ⟨fun a b c => by unfold adjLe; omega⟩

/-! ### Normalization (the `pd.DataFrame({...})` constructions) -/

def normalize_daily_row (r : RawDaily) : Record :=
  { symbol := str_slice_6 r.ts_code
    date := r.trade_date
    time := none
    open_ := r.open_
    high := r.high
    low := r.low
    close := r.close
    volume := r.vol * 100
    amount := r.amount * 1000
    prev := r.pre_close }

def normalize_high_freq_row (r : RawBar) : Record :=
  { symbol := str_slice_6 r.ts_code
    date := r.trade_date
    time := some r.trade_time
    open_ := r.open_
    high := r.high
    low := r.low
    close := r.close
    volume := r.vol
    amount := r.amount
    prev := r.pre_close }

def normalize_adj_row (r : RawAdj) : AdjRecord :=
  { symbol := str_slice_6 r.ts_code
    date := r.trade_date
    adj_factor := r.adj_factor }

/-! ### The fetchers -/

/-- `fetch_historical_data_daily`: one retried provider call, rows sorted
by `trade_date`, then remapped field-by-field (vol x100, amount x1000). -/
def fetch_historical_data_daily (prov : Providers) (symbol : String)
    (start_date end_date : Int) : Except String (List Record) × Nat × Nat :=
  retryCall 5 10 (fun att =>
    (prov.daily (convert_symbol symbol) (convert_date start_date)
        (convert_date end_date) att).map
      (fun rows => (List.insertionSort dailyLe rows).map normalize_daily_row))

/-- `fetch_historical_data_high_freq`: one retried `pro_bar` call for the
window, rows sorted by `trade_time`, then remapped (no unit conversion on
`vol`/`amount` on this path). -/
def fetch_historical_data_high_freq (prov : Providers) (symbol : String)
    (start_date end_date : Int) (frequency : String) :
    Except String (List Record) × Nat × Nat :=
  retryCall 5 10 (fun att =>
    (prov.proBar (convert_symbol symbol) start_date end_date frequency att).map
      (fun rows => (List.insertionSort hfLe rows).map normalize_high_freq_row))

/-- The minute count extracted by `int(re.match(r"(\d+)min", frequency).group(1))`
on the frequencies admitted by the `match` arm. -/
def freqMinutes : String → Option Nat
  | "1min" => some 1
  | "5min" => some 5
  | "15min" => some 15
  | "30min" => some 30
  | "60min" => some 60
  | _ => none

/-- `max_days_per_iteration = 10000 // (240 // num_minutes)`. -/
def max_days_per_iteration (num_minutes : Nat) : Nat := 10000 / (240 / num_minutes)

/-- `pd.Timestamp("2010-01-01")` as a day number (days since 1970-01-01). -/
def date_2010_01_01 : Int := 14610

/-- The per-chunk list comprehension feeding `pd.concat`: chunks are
evaluated left to right and the first raised error aborts the whole
comprehension (later chunks are never fetched). -/
def runChunks (f : Int × Int → Except String (List Record) × Nat × Nat) :
    List (Int × Int) → Except String (List (List Record)) × Nat × Nat
  | [] => (.ok [], 0, 0)
  | c :: rest =>
    match f c with
    | (.error e, a, d) => (.error e, a, d)
    | (.ok t, a, d) =>
      let r := runChunks f rest
      match r.1 with
      | .error e2 => (.error e2, a + r.2.1, d + r.2.2)
      | .ok ts => (.ok (t :: ts), a + r.2.1, d + r.2.2)

/-- `fetch_historical_data`: asserts on the keyword arguments, applies the
default window, then dispatches on the frequency; minute frequencies are
chunked through `split_date_range` and concatenated with `pd.concat`
(which raises on an empty list of tables). -/
def fetch_historical_data (prov : Providers) (today : Int)
    (symbol : Option String) (start_date end_date trade_date : Option Int)
    (frequency : Option String) (fields : Option (List String)) :
    Except String (List Record) × Nat × Nat :=
  match symbol with
  | none => (.error "AssertionError: symbol is None", 0, 0)
  | some sym =>
    match frequency with
    | none => (.error "AssertionError: frequency is None", 0, 0)
    | some freq =>
      match fields with
      | some _ => (.error "AssertionError: fields is not None", 0, 0)
      | none =>
        match trade_date with
        | some _ => (.error "AssertionError: trade_date is not None", 0, 0)
        | none =>
          let s := start_date.getD date_2010_01_01
          let e := end_date.getD today
          if freq = "daily" then
            fetch_historical_data_daily prov sym s e
          else
            match freqMinutes freq with
            | some m =>
              let r := runChunks
                (fun c => fetch_historical_data_high_freq prov sym c.1 c.2 freq)
                (split_date_range s e (max_days_per_iteration m))
              match r.1 with
              | .error err => (.error err, r.2.1, r.2.2)
              | .ok tables =>
                if tables.isEmpty then
                  (.error "ValueError: No objects to concatenate", r.2.1, r.2.2)
                else (.ok tables.flatten, r.2.1, r.2.2)
            | none => (.error (String.append "Unsupported frequency: " freq), 0, 0)

/-- `fetch_adjust_factor`: the whole body — including `convert_symbol` and
`convert_date` on the raw keyword arguments — runs inside
`@retry(tries=5, delay=10)`.  A `None` symbol or date raises
`AttributeError` inside the retried body (there is no defaulting on this
path). -/
def fetch_adjust_factor (prov : Providers) (symbol : Option String)
    (start_date end_date trade_date : Option Int) (frequency : Option String)
    (fields : Option (List String)) :
    Except String (List AdjRecord) × Nat × Nat :=
  retryCall 5 10 (fun att =>
    match symbol, start_date, end_date with
    | some sym, some s, some e =>
      (prov.adjFactor (convert_symbol sym) (convert_date s) (convert_date e) att).map
        (fun rows => (List.insertionSort adjLe rows).map normalize_adj_row)
    | _, _, _ => .error "AttributeError: NoneType argument")

inductive FetchTable where
  | ohlcv : List Record → FetchTable
  | adj : List AdjRecord → FetchTable
deriving DecidableEq

/-- `TushareDataSource.fetch`: dataset dispatch. -/
def fetch (prov : Providers) (today : Int) (dataset : String)
    (symbol : Option String) (start_date end_date trade_date : Option Int)
    (frequency : Option String) (fields : Option (List String)) :
    Except String FetchTable × Nat × Nat :=
  match dataset with
  | "history" | "ohlcv" =>
    let r := fetch_historical_data prov today symbol start_date end_date
      trade_date frequency fields
    (r.1.map FetchTable.ohlcv, r.2.1, r.2.2)
  | "adjust_factor" =>
    let r := fetch_adjust_factor prov symbol start_date end_date trade_date
      frequency fields
    (r.1.map FetchTable.adj, r.2.1, r.2.2)
  | other => (.error (String.append "unsupported dataset: " other), 0, 0)

/-! ## C4, C5, C6, C7, C9 -/

def rawBarEx : RawBar :=
  { ts_code := "000001.SZ", trade_date := 0, trade_time := (0, 540),
    open_ := 1, high := 1, low := 1, close := 1, vol := 1, amount := 1,
    pre_close := 1 }

def rawDailyEx : RawDaily :=
  { ts_code := "000001.SZ", trade_date := 0,
    open_ := 1, high := 1, low := 1, close := 1, vol := 1, amount := 1,
    pre_close := 1 }

/-- C4 counterexample: the claim quantifies over every normalized
historical-price row, but the intraday normalization
(`fetch_historical_data_high_freq`) copies `vol` and `amount` through
unchanged; a raw intraday row with `vol=1`, `amount=1` normalizes to
`volume=1`, `amount=1`, not `100`/`1000`. -/
theorem c4_counterexample :
    rawBarEx.vol = 1 ∧ rawBarEx.amount = 1 ∧
    (normalize_high_freq_row rawBarEx).volume ≠ rawBarEx.vol * 100 ∧
    (normalize_high_freq_row rawBarEx).amount ≠ rawBarEx.amount * 1000 ∧
    (normalize_high_freq_row rawBarEx).volume = 1 ∧
    (normalize_high_freq_row rawBarEx).amount = 1 := by
  refine ⟨rfl, rfl, ?_, ?_, rfl, rfl⟩ <;>
    · show (1 : ℚ) ≠ _
      norm_num [rawBarEx]

/-- C4 amended: only the daily normalization applies the documented unit
conversions — `volume = vol * 100` (lots to shares) and
`amount = amount * 1000` (thousands to units); the intraday normalization
keeps the provider-native `vol` and `amount` unmultiplied.  In particular
a raw daily row with `vol=1`, `amount=1` normalizes to `volume=100`,
`amount=1000`. -/
theorem c4_amended (r : RawDaily) (b : RawBar) :
    (normalize_daily_row r).volume = r.vol * 100 ∧
    (normalize_daily_row r).amount = r.amount * 1000 ∧
    (normalize_high_freq_row b).volume = b.vol ∧
    (normalize_high_freq_row b).amount = b.amount ∧
    (normalize_daily_row rawDailyEx).volume = 100 ∧
    (normalize_daily_row rawDailyEx).amount = 1000 := by
  refine ⟨rfl, rfl, rfl, rfl, ?_, ?_⟩
  · show (1 : ℚ) * 100 = 100
    norm_num
  · show (1 : ℚ) * 1000 = 1000
    norm_num

/-- C5: for every supported intraday frequency of `m` minutes, the code's
chunk length `10000 // (240 // m)` equals the claimed
`floor(10000 / (240 / m))` computed with exact division, and for 5
minutes it is 208 days; `fetch_historical_data` passes exactly
`max_days_per_iteration m` to `split_date_range` as the chunk period. -/
theorem c5_chunk_days (m : Nat) (h : m ∈ ([1, 5, 15, 30, 60] : List Nat)) :
    ((max_days_per_iteration m : Int) = ⌊(10000 : ℚ) / ((240 : ℚ) / (m : ℚ))⌋) ∧
    freqMinutes "5min" = some 5 ∧ max_days_per_iteration 5 = 208 := by
  refine ⟨?_, rfl, rfl⟩
  fin_cases h <;>
    · rw [eq_comm, Int.floor_eq_iff]
      norm_num [max_days_per_iteration]

theorem c5_witness :
    (5 ∈ ([1, 5, 15, 30, 60] : List Nat)) ∧ max_days_per_iteration 5 = 208 :=
  ⟨by decide, (c5_chunk_days 5 (by decide)).2.2⟩

/-- C6: `convert_symbol` is a total function whose choice of suffix
depends only on the symbol's leading character: a leading `'6'` appends
`".SH"`, anything else (including unrecognized leading characters)
appends `".SZ"`; no input fails. -/
theorem c6_convert_symbol :
    (∀ s : String, convert_symbol s =
        s ++ (if s.data.head? = some ('6' : Char) then ".SH" else ".SZ")) ∧
    convert_symbol "600000" = "600000.SH" ∧
    convert_symbol "000001" = "000001.SZ" ∧
    convert_symbol "X99" = "X99.SZ" := by
  refine ⟨?_, by decide, by decide, by decide⟩
  intro s
  unfold convert_symbol startswith_6
  by_cases h : s.data.head? = some ('6' : Char) <;> simp [h]

def okProv : Providers :=
  { daily := fun _ _ _ _ => .ok []
    proBar := fun _ _ _ _ _ => .ok []
    adjFactor := fun _ _ _ _ => .ok [] }

/-- C7 counterexample: the claim extends the default window to the
adjustment-factor dataset, but `fetch_adjust_factor` never substitutes
2010-01-01 for an omitted `start_date`: with a provider that succeeds on
every call, omitting `start_date` makes the fetch fail (the `None` date
raises inside the handler on every attempt), while passing the alleged
default explicitly succeeds — so the omitted date is not replaced before
the provider call. -/
theorem c7_counterexample :
    (fetch_adjust_factor okProv (some "000001") none (some 15000) none none none).1
        = .error "AttributeError: NoneType argument" ∧
    (fetch_adjust_factor okProv (some "000001") (some date_2010_01_01) (some 15000)
        none none none).1 = .ok [] := by
  constructor <;> rfl

/-- C7 amended: the default window — 2010-01-01 for an omitted
`start_date`, the current day for an omitted `end_date` — is applied only
by `fetch_historical_data` (the historical-price path).
`fetch_adjust_factor` applies no defaults: an omitted date there makes
every retried attempt raise, and the fetch fails. -/
theorem c7_amended :
    (∀ (prov : Providers) (today : Int) (sym : String) (ed td : Option Int)
        (fr : Option String) (fi : Option (List String)),
        fetch_historical_data prov today (some sym) none ed td fr fi =
          fetch_historical_data prov today (some sym) (some date_2010_01_01) ed td fr fi) ∧
    (∀ (prov : Providers) (today : Int) (sym : String) (sd td : Option Int)
        (fr : Option String) (fi : Option (List String)),
        fetch_historical_data prov today (some sym) sd none td fr fi =
          fetch_historical_data prov today (some sym) sd (some today) td fr fi) ∧
    (∀ (prov : Providers) (sym : String) (e : Int) (td : Option Int)
        (fr : Option String) (fi : Option (List String)),
        (fetch_adjust_factor prov (some sym) none (some e) td fr fi).1 =
          .error "AttributeError: NoneType argument") ∧
    (∀ (prov : Providers) (sym : String) (s : Int) (td : Option Int)
        (fr : Option String) (fi : Option (List String)),
        (fetch_adjust_factor prov (some sym) (some s) none td fr fi).1 =
          .error "AttributeError: NoneType argument") := by
  refine ⟨fun prov today sym ed td fr fi => rfl, fun prov today sym sd td fr fi => rfl,
    fun prov sym e td fr fi => rfl, fun prov sym s td fr fi => rfl⟩

/-- C9 counterexample: a fetch with invalid caller parameters is not
always surfaced immediately — `fetch_adjust_factor` runs its whole body
(including the failing handling of a missing symbol and missing dates)
inside `@retry(tries=5, delay=10)`, so the failure surfaces only after 5
attempts and 40 seconds of inter-attempt sleeping, even though the
provider is never successfully consulted. -/
theorem c9_counterexample :
    fetch_adjust_factor okProv none none none none none none =
      (.error "AttributeError: NoneType argument", 5, 40) := by
  rfl

/-- C9 amended: invalid parameters checked by `fetch_historical_data`
(missing `symbol` or `frequency`, `fields`/`trade_date` supplied) fail
immediately with zero provider attempts and zero delay, because those
asserts run outside any retry wrapper; but invalid parameters on the
adjustment-factor path raise inside the retried handler and are attempted
5 times with the 10-second inter-attempt delay (40 seconds total) before
the failure surfaces. -/
theorem c9_amended :
    (∀ (prov : Providers) (today : Int) (sd ed td : Option Int)
        (fr : Option String) (fi : Option (List String)),
        fetch_historical_data prov today none sd ed td fr fi =
          (.error "AssertionError: symbol is None", 0, 0)) ∧
    (∀ (prov : Providers) (today : Int) (sym fr : String) (sd ed td : Option Int)
        (fi : List String),
        fetch_historical_data prov today (some sym) sd ed td (some fr) (some fi) =
          (.error "AssertionError: fields is not None", 0, 0)) ∧
    (∀ (prov : Providers) (td : Option Int) (fr : Option String)
        (fi : Option (List String)),
        fetch_adjust_factor prov none none none td fr fi =
          (.error "AttributeError: NoneType argument", 5, 40)) := by
  refine ⟨fun prov today sd ed td fr fi => rfl,
    fun prov today sym fr sd ed td fi => rfl,
    fun prov td fr fi => rfl⟩

/-! ## C2: retry exhaustion and whole-fetch failure -/

lemma retryGo_all_fail {A : Type} (f : Nat → Except String A) (delay : Nat)
    (err : Nat → String) :
    ∀ (remaining attempt : Nat), 0 < remaining →
      (∀ i, attempt ≤ i → i < attempt + remaining → f i = .error (err i)) →
      retryGo f delay attempt remaining =
        (.error (err (attempt + remaining - 1)), remaining, (remaining - 1) * delay) := by
  intro remaining
  induction remaining with
  | zero => intro attempt h; omega
  | succ n ih =>
    intro attempt _ hf
    have hfa : f attempt = .error (err attempt) := hf attempt (le_refl _) (by omega)
    simp only [retryGo, hfa]
    by_cases hn : n = 0
    · subst hn
      simp
    · rw [if_neg hn, ih (attempt + 1) (by omega)
        (fun i h1 h2 => hf i (by omega) (by omega))]
      rw [show attempt + 1 + n - 1 = attempt + (n + 1) - 1 by omega]
      refine Prod.ext rfl (Prod.ext rfl ?_)
      show (n - 1) * delay + delay = (n + 1 - 1) * delay
      have hn1 : n - 1 + 1 = n := by omega
      calc (n - 1) * delay + delay = (n - 1 + 1) * delay := by ring
        _ = (n + 1 - 1) * delay := by rw [hn1, Nat.add_sub_cancel]

lemma retryGo_first_ok {A : Type} (f : Nat → Except String A) (delay : Nat)
    (a : A) :
    ∀ (k remaining attempt : Nat), k < remaining →
      (∀ i, attempt ≤ i → i < attempt + k → (f i).isOk = false) →
      f (attempt + k) = .ok a →
      retryGo f delay attempt remaining = (.ok a, k + 1, k * delay) := by
  intro k
  induction k with
  | zero =>
    intro remaining attempt hk _ hok
    obtain ⟨r, rfl⟩ : ∃ r, remaining = r + 1 := ⟨remaining - 1, by omega⟩
    rw [show attempt + 0 = attempt from rfl] at hok
    simp [retryGo, hok]
  | succ k ih =>
    intro remaining attempt hk hfail hok
    obtain ⟨r, rfl⟩ : ∃ r, remaining = r + 1 := ⟨remaining - 1, by omega⟩
    have hfa := hfail attempt (le_refl _) (by omega)
    obtain ⟨e, he⟩ : ∃ e, f attempt = .error e := by
      cases hf : f attempt with
      | ok v => rw [hf] at hfa; simp [Except.isOk, Except.toBool] at hfa
      | error e => exact ⟨e, rfl⟩
    simp only [retryGo, he]
    rw [if_neg (by omega : ¬ r = 0),
      ih r (attempt + 1) (by omega)
        (fun i h1 h2 => hfail i (by omega) (by omega))
        (by rw [show attempt + 1 + k = attempt + (k + 1) by omega]; exact hok)]
    refine Prod.ext rfl (Prod.ext rfl ?_)
    show k * delay + delay = (k + 1) * delay
    ring

lemma retryGo_ok_exists {A : Type} (f : Nat → Except String A) (delay : Nat)
    (a : A) :
    ∀ (remaining attempt : Nat),
      (retryGo f delay attempt remaining).1 = .ok a → ∃ i, f i = .ok a := by
  intro remaining
  induction remaining with
  | zero => intro attempt h; cases h
  | succ n ih =>
    intro attempt h
    cases hf : f attempt with
    | ok v =>
      refine ⟨attempt, ?_⟩
      simp only [retryGo, hf] at h
      cases h
      exact hf
    | error e =>
      simp only [retryGo, hf] at h
      by_cases hn : n = 0
      · rw [if_pos hn] at h
        cases h
      · rw [if_neg hn] at h
        exact ih (attempt + 1) h

/-- The list comprehension aborts at the first chunk whose retried call
fails, after any prefix of successful chunks. -/
lemma runChunks_append_error
    (f : Int × Int → Except String (List Record) × Nat × Nat)
    (c : Int × Int) (post : List (Int × Int)) (msg : String) :
    ∀ pre : List (Int × Int), (∀ x ∈ pre, ((f x).1).isOk = true) →
      (f c).1 = .error msg →
      (runChunks f (pre ++ c :: post)).1 = .error msg := by
  intro pre
  induction pre with
  | nil =>
    intro _ hc
    rcases hfc : f c with ⟨res, a, d⟩
    rw [hfc] at hc
    simp only at hc
    subst hc
    simp [runChunks, hfc]
  | cons p ps ih =>
    intro hpre hc
    have hp := hpre p (List.mem_cons_self _ _)
    rcases hfp : f p with ⟨res, a, d⟩
    rw [hfp] at hp
    cases res with
    | error e => simp [Except.isOk, Except.toBool] at hp
    | ok t =>
      have htail := ih (fun x hx => hpre x (List.mem_cons_of_mem _ hx)) hc
      rcases hr : runChunks f (ps ++ c :: post) with ⟨res2, a2, d2⟩
      rw [hr] at htail
      simp only at htail
      subst htail
      simp [runChunks, hfp, hr]

/-- C2: each per-chunk provider call is attempted up to 5 times with a
fixed 10-second delay between attempts, retrying uniformly on any raised
error: an always-failing call fails after exactly 5 attempts and 40
seconds of sleeping, propagating the last failure; a call that recovers
at attempt `k < 5` succeeds after `k+1` attempts; and when one chunk of a
multi-chunk intraday fetch exhausts its retries, the entire
`fetch_historical_data` fails with that chunk's last failure and returns
no rows, however many earlier chunks succeeded. -/
theorem c2_retry_exhaustion_aborts_fetch :
    (∀ (A : Type) (f : Nat → Except String A) (err : Nat → String),
        (∀ i, i < 5 → f i = .error (err i)) →
        retryCall 5 10 f = (.error (err 4), 5, 40)) ∧
    (∀ (A : Type) (f : Nat → Except String A) (k : Nat) (a : A),
        k < 5 → (∀ i, i < k → (f i).isOk = false) → f k = .ok a →
        retryCall 5 10 f = (.ok a, k + 1, 10 * k)) ∧
    (∀ (prov : Providers) (today : Int) (sym freq : String) (m : Nat)
        (sd ed : Int) (pre post : List (Int × Int)) (s e : Int)
        (err : Nat → String),
        freqMinutes freq = some m →
        split_date_range sd ed (max_days_per_iteration m) = pre ++ (s, e) :: post →
        (∀ c ∈ pre,
          ((fetch_historical_data_high_freq prov sym c.1 c.2 freq).1).isOk = true) →
        (∀ att, prov.proBar (convert_symbol sym) s e freq att = .error (err att)) →
        (fetch_historical_data prov today (some sym) (some sd) (some ed) none
            (some freq) none).1 = .error (err 4)) := by
  refine ⟨?_, ?_, ?_⟩
  · intro A f err hf
    have := retryGo_all_fail f 10 err 5 0 (by omega) (fun i h1 h2 => hf i (by omega))
    simpa [retryCall] using this
  · intro A f k a hk hfail hok
    have := retryGo_first_ok f 10 a k 5 0 hk (fun i h1 h2 => hfail i (by omega))
      (by simpa using hok)
    simpa [retryCall, Nat.mul_comm] using this
  · intro prov today sym freq m sd ed pre post s e err hm hsplit hpre hfail
    have hfreq : freq ≠ "daily" := by
      intro h
      rw [h] at hm
      cases hm
    have hchunk1 : ∀ att,
        ((prov.proBar (convert_symbol sym) s e freq att).map
          (fun rows => (List.insertionSort hfLe rows).map normalize_high_freq_row))
          = .error (err att) := by
      intro att
      rw [hfail att]
      rfl
    have hchunk : (fetch_historical_data_high_freq prov sym s e freq).1 =
        .error (err 4) := by
      unfold fetch_historical_data_high_freq retryCall
      rw [retryGo_all_fail _ 10 err 5 0 (by omega)
        (fun i h1 h2 => hchunk1 i)]
    have hrun := runChunks_append_error
      (fun c => fetch_historical_data_high_freq prov sym c.1 c.2 freq)
      (s, e) post (err 4) pre hpre hchunk
    rw [← hsplit] at hrun
    unfold fetch_historical_data
    simp only [Option.getD]
    rw [if_neg hfreq, hm]
    dsimp only
    rcases hr : runChunks
        (fun c => fetch_historical_data_high_freq prov sym c.1 c.2 freq)
        (split_date_range sd ed (max_days_per_iteration m)) with ⟨res, a2, d2⟩
    rw [hr] at hrun
    simp only at hrun
    subst hrun
    rfl

def provC2 : Providers :=
  { daily := fun _ _ _ _ => .ok []
    proBar := fun _ s _ _ _ => if s = 0 then .ok [] else .error "boom"
    adjFactor := fun _ _ _ _ => .ok [] }

def fRecover : Nat → Except String Nat :=
  fun i => if i = 2 then .ok 7 else .error "x"

theorem c2_witness :
    retryCall 5 10 (fun _ => (.error "boom" : Except String Nat)) =
      (.error "boom", 5, 40) ∧
    retryCall 5 10 fRecover = (.ok 7, 3, 20) ∧
    (fetch_historical_data provC2 0 (some "000001") (some 0) (some 300) none
        (some "5min") none).1 = .error "boom" :=
  ⟨c2_retry_exhaustion_aborts_fetch.1 Nat (fun _ => .error "boom") (fun _ => "boom")
      (fun _ _ => rfl),
    c2_retry_exhaustion_aborts_fetch.2.1 Nat fRecover 2 7 (by omega)
      (by intro i hi; interval_cases i <;> rfl) rfl,
    c2_retry_exhaustion_aborts_fetch.2.2 provC2 0 "000001" "5min" 5 0 300
      [(0, 208)] [] 209 300 (fun _ => "boom") rfl (by decide)
      (by intro c hc; rw [List.mem_singleton] at hc; subst hc; rfl)
      (fun _ => rfl)⟩

/-! ## C3: returned tables are sorted with no duplicate keys -/

def optTimeLt : Option (Int × Nat) → Option (Int × Nat) → Prop
  | some a, some b => a.1 < b.1 ∨ (a.1 = b.1 ∧ a.2 < b.2)
  | _, _ => False

/-- Strict ascending (date, then time) order between two canonical rows;
`List.Pairwise rowKeyLt` states the table is sorted ascending by date
(then time) with no duplicate (date[, time]) key. -/
def rowKeyLt (a b : Record) : Prop :=
  a.date < b.date ∨ (a.date = b.date ∧ optTimeLt a.time b.time)

/-- Provider-behaviour facts the invariant is conditioned on: rows of one
intraday response lie within the queried day window, carry a `trade_date`
consistent with their `trade_time`, and have no duplicate timestamp. -/
def rawBarWF (s e : Int) (rows : List RawBar) : Prop :=
  (∀ r ∈ rows,
    s ≤ r.trade_time.1 ∧ r.trade_time.1 ≤ e ∧ r.trade_date = r.trade_time.1) ∧
  List.Pairwise (fun r r2 : RawBar => r.trade_time ≠ r2.trade_time) rows

def hfProviderWF (prov : Providers) : Prop :=
  ∀ code s e freq att rows,
    prov.proBar code s e freq att = .ok rows → rawBarWF s e rows

def dailyProviderWF (prov : Providers) : Prop :=
  ∀ code s e att rows, prov.daily code s e att = .ok rows →
    List.Pairwise (fun r r2 : RawDaily => r.trade_date ≠ r2.trade_date) rows

def adjProviderWF (prov : Providers) : Prop :=
  ∀ code s e att rows, prov.adjFactor code s e att = .ok rows →
    List.Pairwise (fun r r2 : RawAdj => r.trade_date ≠ r2.trade_date) rows

lemma hf_chunk_sorted {prov : Providers} (hwf : hfProviderWF prov)
    (sym freq : String) (s e : Int) (t : List Record)
    (h : (fetch_historical_data_high_freq prov sym s e freq).1 = .ok t) :
    List.Pairwise rowKeyLt t ∧ ∀ r ∈ t, s ≤ r.date ∧ r.date ≤ e := by
  obtain ⟨att, hatt⟩ := retryGo_ok_exists _ 10 t 5 0 h
  obtain ⟨rows, hrows, ht⟩ : ∃ rows,
      prov.proBar (convert_symbol sym) s e freq att = .ok rows ∧
      t = (List.insertionSort hfLe rows).map normalize_high_freq_row := by
    cases hpb : prov.proBar (convert_symbol sym) s e freq att with
    | ok rows =>
      rw [hpb] at hatt
      exact ⟨rows, rfl, by cases hatt; rfl⟩
    | error e2 => rw [hpb] at hatt; cases hatt
  obtain ⟨hbounds, hdist⟩ := hwf _ _ _ _ _ _ hrows
  subst ht
  have hperm := List.perm_insertionSort hfLe rows
  have hsorted : List.Pairwise hfLe (List.insertionSort hfLe rows) :=
    List.sorted_insertionSort hfLe rows
  have hdist2 : List.Pairwise (fun r r2 : RawBar => r.trade_time ≠ r2.trade_time)
      (List.insertionSort hfLe rows) :=
    (List.Perm.pairwise_iff (fun hxy hE => hxy hE.symm) hperm).mpr hdist
  have hmem : ∀ r ∈ List.insertionSort hfLe rows,
      s ≤ r.trade_time.1 ∧ r.trade_time.1 ≤ e ∧ r.trade_date = r.trade_time.1 :=
    fun r hr => hbounds r (hperm.mem_iff.mp hr)
  constructor
  · rw [List.pairwise_map]
    refine (hsorted.and hdist2).imp_of_mem ?_
    intro a b ha hb hab
    obtain ⟨hle, hne⟩ := hab
    have hA := hmem a ha
    have hB := hmem b hb
    have hne2 : ¬(a.trade_time.1 = b.trade_time.1 ∧ a.trade_time.2 = b.trade_time.2) :=
      fun hp => hne (Prod.ext hp.1 hp.2)
    unfold hfLe at hle
    show a.trade_date < b.trade_date ∨
      (a.trade_date = b.trade_date ∧
        (a.trade_time.1 < b.trade_time.1 ∨
          (a.trade_time.1 = b.trade_time.1 ∧ a.trade_time.2 < b.trade_time.2)))
    omega
  · intro r hr
    rw [List.mem_map] at hr
    obtain ⟨a, ha, rfl⟩ := hr
    have hA := hmem a ha
    show s ≤ a.trade_date ∧ a.trade_date ≤ e
    omega

lemma runChunks_ok_sorted
    (f : Int × Int → Except String (List Record) × Nat × Nat) :
    ∀ (chunks : List (Int × Int)),
      List.Pairwise (fun a b : Int × Int => a.2 < b.1) chunks →
      (∀ c ∈ chunks, ∀ t, (f c).1 = .ok t →
        List.Pairwise rowKeyLt t ∧ ∀ r ∈ t, c.1 ≤ r.date ∧ r.date ≤ c.2) →
      ∀ (tables : List (List Record)) (n d : Nat),
        runChunks f chunks = (.ok tables, n, d) →
        List.Pairwise rowKeyLt tables.flatten ∧
        ∀ r ∈ tables.flatten, ∃ c ∈ chunks, c.1 ≤ r.date ∧ r.date ≤ c.2 := by
  intro chunks
  induction chunks with
  | nil =>
    intro _ _ tables n d h
    simp only [runChunks] at h
    have h1 := congrArg (fun x => x.1) h
    simp only at h1
    injection h1 with h1
    subst h1
    simp
  | cons c rest ih =>
    intro hdisj hchunks tables n d h
    rcases hfc : f c with ⟨res, a1, d1⟩
    simp only [runChunks, hfc] at h
    cases res with
    | error e1 => cases h
    | ok t =>
      rcases hr : runChunks f rest with ⟨res2, a2, d2⟩
      rw [hr] at h
      cases res2 with
      | error e2 => cases h
      | ok ts =>
        simp only at h
        have h1 := congrArg (fun x => x.1) h
        simp only at h1
        injection h1 with h1
        subst h1
        obtain ⟨ht_sorted, ht_bounds⟩ :=
          hchunks c (List.mem_cons_self _ _) t (by rw [hfc])
        obtain ⟨hts_sorted, hts_bounds⟩ := ih hdisj.of_cons
          (fun c' hc' => hchunks c' (List.mem_cons_of_mem _ hc')) ts a2 d2 hr
        have hflat : (t :: ts).flatten = t ++ ts.flatten := rfl
        constructor
        · rw [hflat, List.pairwise_append]
          refine ⟨ht_sorted, hts_sorted, ?_⟩
          intro a ha b hb
          obtain ⟨c', hc', hb1, hb2⟩ := hts_bounds b hb
          have hac := ht_bounds a ha
          have hcc' := (List.pairwise_cons.mp hdisj).1 c' hc'
          exact Or.inl (by omega)
        · intro r hrr
          rw [hflat, List.mem_append] at hrr
          rcases hrr with h1 | h2
          · exact ⟨c, List.mem_cons_self _ _, ht_bounds r h1⟩
          · obtain ⟨c', hc', hb⟩ := hts_bounds r h2
            exact ⟨c', List.mem_cons_of_mem _ hc', hb⟩

/-- C3: every table returned by the fetchers is sorted ascending by date
(then time when present) with no duplicate (symbol, date[, time]) key —
stated as pairwise strict key order, with the fetch's single symbol per
table.  For a multi-chunk intraday fetch this holds across every chunk
boundary (chunks are disjoint day windows concatenated in `split_date_range`
order), given the provider returns rows inside the queried window with
consistent dates and no duplicate timestamps per response; the daily and
adjustment-factor tables are likewise sorted given per-response distinct
trade dates. -/
theorem c3_fetch_tables_sorted :
    (∀ (prov : Providers) (today : Int) (sym freq : String) (m : Nat)
        (sd ed : Int) (tbl : List Record) (n d : Nat),
        freqMinutes freq = some m →
        hfProviderWF prov →
        fetch_historical_data prov today (some sym) (some sd) (some ed) none
            (some freq) none = (.ok tbl, n, d) →
        List.Pairwise rowKeyLt tbl) ∧
    (∀ (prov : Providers) (sym : String) (sd ed : Int) (tbl : List Record)
        (n d : Nat),
        dailyProviderWF prov →
        fetch_historical_data_daily prov sym sd ed = (.ok tbl, n, d) →
        List.Pairwise rowKeyLt tbl) ∧
    (∀ (prov : Providers) (sym : String) (sd ed : Int) (td : Option Int)
        (fr : Option String) (fi : Option (List String)) (tbl : List AdjRecord)
        (n d : Nat),
        adjProviderWF prov →
        fetch_adjust_factor prov (some sym) (some sd) (some ed) td fr fi =
          (.ok tbl, n, d) →
        List.Pairwise (fun x y : AdjRecord => x.date < y.date) tbl) := by
  refine ⟨?_, ?_, ?_⟩
  · intro prov today sym freq m sd ed tbl n d hm hwf hfetch
    have hfreq : freq ≠ "daily" := by
      intro h
      rw [h] at hm
      cases hm
    unfold fetch_historical_data at hfetch
    simp only [Option.getD] at hfetch
    rw [if_neg hfreq, hm] at hfetch
    dsimp only at hfetch
    rcases hrc : runChunks
        (fun c => fetch_historical_data_high_freq prov sym c.1 c.2 freq)
        (split_date_range sd ed (max_days_per_iteration m)) with ⟨res, a2, d2⟩
    rw [hrc] at hfetch
    cases res with
    | error e1 =>
      have h1 := congrArg (fun x => x.1) hfetch
      simp only at h1
      cases h1
    | ok tables =>
      dsimp only at hfetch
      by_cases hemp : tables.isEmpty = true
      · rw [if_pos hemp] at hfetch
        have h1 := congrArg (fun x => x.1) hfetch
        simp only at h1
        cases h1
      · rw [if_neg hemp] at hfetch
        have h1 := congrArg (fun x => x.1) hfetch
        simp only at h1
        injection h1 with h1
        subst h1
        exact (runChunks_ok_sorted _ _ split_disjoint'
          (fun c _ t ht => hf_chunk_sorted hwf sym freq c.1 c.2 t ht)
          tables a2 d2 hrc).1
  · intro prov sym sd ed tbl n d hwf hfetch
    have h1 : (fetch_historical_data_daily prov sym sd ed).1 = .ok tbl := by
      rw [hfetch]
    obtain ⟨att, hatt⟩ := retryGo_ok_exists _ 10 tbl 5 0 h1
    obtain ⟨rows, hrows, ht⟩ : ∃ rows,
        prov.daily (convert_symbol sym) (convert_date sd) (convert_date ed) att
            = .ok rows ∧
        tbl = (List.insertionSort dailyLe rows).map normalize_daily_row := by
      cases hpb : prov.daily (convert_symbol sym) (convert_date sd)
          (convert_date ed) att with
      | ok rows =>
        rw [hpb] at hatt
        exact ⟨rows, rfl, by cases hatt; rfl⟩
      | error e2 => rw [hpb] at hatt; cases hatt
    have hdist := hwf _ _ _ _ _ hrows
    subst ht
    have hperm := List.perm_insertionSort dailyLe rows
    have hsorted : List.Pairwise dailyLe (List.insertionSort dailyLe rows) :=
      List.sorted_insertionSort dailyLe rows
    have hdist2 : List.Pairwise
        (fun r r2 : RawDaily => r.trade_date ≠ r2.trade_date)
        (List.insertionSort dailyLe rows) :=
      (List.Perm.pairwise_iff (fun hxy hE => hxy hE.symm) hperm).mpr hdist
    rw [List.pairwise_map]
    refine (hsorted.and hdist2).imp ?_
    intro a b hab
    obtain ⟨hle, hne⟩ := hab
    unfold dailyLe at hle
    exact Or.inl (show a.trade_date < b.trade_date by omega)
  · intro prov sym sd ed td fr fi tbl n d hwf hfetch
    have h1 : (fetch_adjust_factor prov (some sym) (some sd) (some ed) td fr fi).1
        = .ok tbl := by
      rw [hfetch]
    obtain ⟨att, hatt⟩ := retryGo_ok_exists _ 10 tbl 5 0 h1
    dsimp only at hatt
    obtain ⟨rows, hrows, ht⟩ : ∃ rows,
        prov.adjFactor (convert_symbol sym) (convert_date sd) (convert_date ed) att
            = .ok rows ∧
        tbl = (List.insertionSort adjLe rows).map normalize_adj_row := by
      cases hpb : prov.adjFactor (convert_symbol sym) (convert_date sd)
          (convert_date ed) att with
      | ok rows =>
        rw [hpb] at hatt
        exact ⟨rows, rfl, by cases hatt; rfl⟩
      | error e2 => rw [hpb] at hatt; cases hatt
    have hdist := hwf _ _ _ _ _ hrows
    subst ht
    have hperm := List.perm_insertionSort adjLe rows
    have hsorted : List.Pairwise adjLe (List.insertionSort adjLe rows) :=
      List.sorted_insertionSort adjLe rows
    have hdist2 : List.Pairwise
        (fun r r2 : RawAdj => r.trade_date ≠ r2.trade_date)
        (List.insertionSort adjLe rows) :=
      (List.Perm.pairwise_iff (fun hxy hE => hxy hE.symm) hperm).mpr hdist
    rw [List.pairwise_map]
    refine (hsorted.and hdist2).imp ?_
    intro a b hab
    obtain ⟨hle, hne⟩ := hab
    unfold adjLe at hle
    show a.trade_date < b.trade_date
    omega

def mkBarW (s : Int) : RawBar :=
  { ts_code := "000001.SZ", trade_date := s, trade_time := (s, 540),
    open_ := 1, high := 1, low := 1, close := 1, vol := 1, amount := 1,
    pre_close := 1 }

def provW : Providers :=
  { daily := fun _ _ _ _ => .ok []
    proBar := fun _ s e _ _ => if s ≤ e then .ok [mkBarW s] else .ok []
    adjFactor := fun _ _ _ _ => .ok [] }

theorem c3_witness :
    freqMinutes "5min" = some 5 ∧
    List.Pairwise rowKeyLt
      [normalize_high_freq_row (mkBarW 0), normalize_high_freq_row (mkBarW 209)] :=
  ⟨rfl,
    c3_fetch_tables_sorted.1 provW 0 "000001" "5min" 5 0 300
      [normalize_high_freq_row (mkBarW 0), normalize_high_freq_row (mkBarW 209)] 2 0
      rfl
      (by
        intro code s e freq att rows hok
        by_cases hse : s ≤ e
        · simp only [provW, if_pos hse] at hok
          injection hok with hok
          subst hok
          constructor
          · intro r hr
            rw [List.mem_singleton] at hr
            subst hr
            exact ⟨le_refl _, hse, rfl⟩
          · exact List.pairwise_singleton _ _
        · simp only [provW, if_neg hse] at hok
          injection hok with hok
          subst hok
          exact ⟨fun r hr => absurd hr (List.not_mem_nil r), List.Pairwise.nil⟩)
      rfl⟩

end Alch
